import Mathlib

/-!
Verification of `configure_spaces_mcp.py`: a shallow embedding of the
catalogue, the per-entry transform (`SpaceServer.to_config`), the merge
(`build_combined_config`), the selector (`resolve_selection`), the writer
(`write_config`) and the driver (`main`), together with theorems settling
the specification's claims about them.

Python dictionaries are modelled as association lists with Python's
insertion semantics (`dictInsert`): updating an existing key replaces its
value in place, a new key is appended at the end.  Fallible Python code
(raised exceptions) is modelled with `Except`.  The standard-library
helpers the script uses (`str.split()`, `str.join`, `sorted`,
`json.dumps`/`json.loads`) are modelled by executable Lean functions
(`pySplit`, `strJoin`, `List.insertionSort`, the `Json` encoder/decoder).
-/

/-- Whitespace as recognised by Python's `str.isspace()` and hence by the
no-argument `str.split()`: the six characters of `string.whitespace`
(space, tab, newline, carriage return, vertical tab, form feed), the
ASCII separator controls U+001C to U+001F, the next line character
U+0085, and the Unicode space and line and paragraph separators U+00A0,
U+1680, U+2000 to U+200A, U+2028, U+2029, U+202F, U+205F, U+3000. -/
def pyIsSpace (c : Char) : Bool :=
  c == ' ' || c == '\t' || c == '\n' || c == '\r' ||
    c == Char.ofNat 11 || c == Char.ofNat 12 ||
    (decide (28 ≤ c.toNat) && decide (c.toNat ≤ 31)) ||
    c.toNat == 133 || c.toNat == 160 || c.toNat == 5760 ||
    (decide (8192 ≤ c.toNat) && decide (c.toNat ≤ 8202)) ||
    c.toNat == 8232 || c.toNat == 8233 || c.toNat == 8239 ||
    c.toNat == 8287 || c.toNat == 12288

/-- Worker for `pySplit`: walks the character list, `cur` holds the
(reversed) characters of the token being accumulated. -/
def pySplitChars : List Char → List Char → List String
  | [], [] => []
  | [], cur => [String.mk cur.reverse]
  | c :: rest, cur =>
    if pyIsSpace c then
      if cur.isEmpty then pySplitChars rest []
      else String.mk cur.reverse :: pySplitChars rest []
    else pySplitChars rest (c :: cur)

/-- Python's `s.split()` with no separator: split on runs of whitespace,
discarding leading and trailing whitespace, never producing empty tokens. -/
def pySplit (s : String) : List String := pySplitChars s.data []

/-- Python's `sep.join(xs)`. -/
def strJoin (sep : String) : List String → String
  | [] => ""
  | [x] => x
  | x :: y :: xs => x ++ sep ++ strJoin sep (y :: xs)

/-- One rendered configuration fragment (the value part of the single-key
dict returned by `SpaceServer.to_config`): either
`{"type": "http", "url": …}`, `{"type": "ws", "url": …}`, or
`{"command": …, "args": […]}`. -/
inductive ServerConfig : Type
  | http (url : String)
  | ws (url : String)
  | cmd (command : String) (args : List String)
deriving DecidableEq, Repr

/-- The ways `SpaceServer.to_config` can raise: the explicit
`ValueError(f"Unsupported transport …")`, or the implicit `ValueError`
from unpacking `command, *args = self.entrypoint.split()` when the split
yields no tokens. -/
inductive ConfigError : Type
  | unsupportedTransport (spaceId : String) (transport : String)
  | unpackError
deriving DecidableEq, Repr

/-- Rendering of a `ConfigError` as the message of the Python exception. -/
def configErrorMessage : ConfigError → String
  | .unsupportedTransport spaceId transport =>
      "Unsupported transport '" ++ transport ++ "' for " ++ spaceId
  | .unpackError => "not enough values to unpack (expected at least 1, got 0)"

/-- Declarative description of a Hugging Face Space that exposes MCP
(dataclass `SpaceServer`). -/
structure SpaceServer : Type where
  space_id : String
  display_name : String
  transport : String
  entrypoint : String
  description : String
deriving DecidableEq, Repr

/-- Translation of `SpaceServer.to_config`: render a single-key dict
`{display_name: server_config}`, modelled as a `String × ServerConfig`
pair; unrecognised transports and an empty token list raise. -/
def SpaceServer.to_config (s : SpaceServer) :
    Except ConfigError (String × ServerConfig) :=
  if s.transport = "http" then
    .ok (s.display_name, .http s.entrypoint)
  else if s.transport = "ws" then
    .ok (s.display_name, .ws s.entrypoint)
  else if s.transport = "command" then
    match pySplit s.entrypoint with
    | [] => .error .unpackError
    | command :: args => .ok (s.display_name, .cmd command args)
  else
    .error (.unsupportedTransport s.space_id s.transport)

/-- The static catalogue `POPULAR_SPACES`. -/
def POPULAR_SPACES : List SpaceServer :=
  [ { space_id := "modelcontextprotocol/Everything",
      display_name := "everything",
      transport := "command",
      entrypoint := "npx -y @modelcontextprotocol/server-everything stdio",
      description := "Comprehensive protocol exerciser with echo, add, resources, prompts, and sampling support. Useful for validating MCP client implementations." },
    { space_id := "meta-llama/llama-3-8b-instruct",
      display_name := "llama-3-8b-chat",
      transport := "http",
      entrypoint := "https://llama-3-8b-instruct.hf.space/mcp",
      description := "Community LLaMA 3 chat interface. HTTP transport exposes inference endpoints suitable for natural language tooling." },
    { space_id := "stabilityai/stable-diffusion",
      display_name := "stable-diffusion",
      transport := "http",
      entrypoint := "https://stabilityai-stable-diffusion.hf.space/mcp",
      description := "Image generation pipeline mirroring the Stable Diffusion demo space." },
    { space_id := "microsoft/phi-3-vision",
      display_name := "phi-3-vision",
      transport := "http",
      entrypoint := "https://microsoft-phi-3-vision.hf.space/mcp",
      description := "Vision-language toolchain exposing the Phi-3 multimodal experience via MCP compatible HTTP endpoints." } ]

/-- Python `dict` update with one key: replace in place when the key is
present (keeping its position), append otherwise. -/
def dictInsert {α : Type} (d : List (String × α)) (k : String) (v : α) :
    List (String × α) :=
  if (d.map Prod.fst).contains k then
    d.map (fun p => if p.1 = k then (k, v) else p)
  else
    d ++ [(k, v)]

/-- Python `dict` key lookup (first pair with the key; the dicts built
here never hold a key twice). -/
def dictLookup {α : Type} (d : List (String × α)) (k : String) : Option α :=
  (d.find? (fun p => p.1 == k)).map Prod.snd

/-- Translation of `build_combined_config`: start from the empty dict and
`update` it with each entry's rendered single-key dict, in order; an
exception from `to_config` aborts the loop. -/
def build_combined_config (spaces : List SpaceServer) :
    Except ConfigError (List (String × ServerConfig)) :=
  spaces.foldlM
    (fun combined s => (s.to_config).map (fun p => dictInsert combined p.1 p.2))
    []

/-- First-occurrence deduplication worker: drop every element already in
`seen` or seen earlier in the list. -/
def firstDedupAux (seen : List String) : List String → List String
  | [] => []
  | x :: xs =>
    if seen.contains x then firstDedupAux seen xs
    else x :: firstDedupAux (x :: seen) xs

/-- Keys of a Python dict built by successive insertion: the inserted keys
in first-occurrence order. -/
def firstDedup (l : List String) : List String := firstDedupAux [] l

/-- The key list of the dict comprehension
`{space.display_name: space for space in POPULAR_SPACES}`. -/
def catalogueNames : List String :=
  firstDedup (POPULAR_SPACES.map (fun s => s.display_name))

/-- Value lookup in that dict comprehension: the last catalogue entry with
the given display name (later comprehension iterations overwrite). -/
def findSpace (name : String) : Option SpaceServer :=
  POPULAR_SPACES.reverse.find? (fun s => s.display_name == name)

/-- Translation of `resolve_selection`: an absent or empty selection
returns the full catalogue; otherwise every requested name is looked up
individually, and any unknown name raises `SystemExit` with a message
naming all unknown names and all valid names sorted. -/
def resolve_selection (selection : Option (List String)) :
    Except String (List SpaceServer) :=
  match selection with
  | none => .ok POPULAR_SPACES
  | some sel =>
    if sel.isEmpty then .ok POPULAR_SPACES
    else
      let unknown := sel.filter (fun name => !(catalogueNames.contains name))
      if unknown.isEmpty then
        .ok (sel.filterMap findSpace)
      else
        .error ("Unknown space(s): " ++ strJoin ", " unknown ++
          ". Valid options: " ++
          strJoin ", " (List.insertionSort (fun a b => a ≤ b) catalogueNames))

/-- JSON values of the schema this tool emits (strings, arrays, objects
with ordered members), the value level of `json.dumps`/`json.loads`. -/
inductive Json : Type
  | str (s : String)
  | arr (elems : List Json)
  | obj (members : List (String × Json))

/-- Encoding of one fragment as the JSON object `json.dumps` receives. -/
def encodeServerConfig : ServerConfig → Json
  | .http url => .obj [("type", .str "http"), ("url", .str url)]
  | .ws url => .obj [("type", .str "ws"), ("url", .str url)]
  | .cmd command args =>
      .obj [("command", .str command), ("args", .arr (args.map Json.str))]

/-- Encoding of the merged mapping, member order following the dict's
insertion order. -/
def encodeConfig (config : List (String × ServerConfig)) : Json :=
  .obj (config.map (fun p => (p.1, encodeServerConfig p.2)))

/-- Translation of `write_config`: the JSON value
`{"servers": config}` written to the output file. -/
def write_config (config : List (String × ServerConfig)) : Json :=
  .obj [("servers", encodeConfig config)]

/-- Decoding of a JSON string back to the string it encodes. -/
def decodeStr : Json → Option String
  | .str s => some s
  | _ => none

/-- Decoding of a JSON array of strings. -/
def decodeStrList : List Json → Option (List String)
  | [] => some []
  | j :: js =>
    (decodeStr j).bind (fun s => (decodeStrList js).map (fun ss => s :: ss))

/-- Decoding of one fragment back from JSON (the shape `json.loads`
returns for this schema). -/
def decodeServerConfig : Json → Option ServerConfig
  | .obj [("type", .str "http"), ("url", .str url)] => some (.http url)
  | .obj [("type", .str "ws"), ("url", .str url)] => some (.ws url)
  | .obj [("command", .str command), ("args", .arr elems)] =>
      (decodeStrList elems).map (fun args => ServerConfig.cmd command args)
  | _ => none

/-- Decoding of the ordered member list of the mapping. -/
def decodeMembers : List (String × Json) → Option (List (String × ServerConfig))
  | [] => some []
  | p :: ps =>
    (decodeServerConfig p.2).bind (fun c =>
      (decodeMembers ps).map (fun rest => (p.1, c) :: rest))

/-- Decoding of the merged mapping back from JSON. -/
def decodeConfig : Json → Option (List (String × ServerConfig))
  | .obj members => decodeMembers members
  | _ => none

/-- Parsing a written file back: unwrap `{"servers": …}` and decode. -/
def parse_config : Json → Option (List (String × ServerConfig))
  | .obj [("servers", j)] => decodeConfig j
  | _ => none

/-- Text printed for one entry by `print_human_summary` (each `print` call
appends a newline). -/
def summaryEntry (s : SpaceServer) : String :=
  "- " ++ s.display_name ++ "\n" ++
  "  Space ID    : " ++ s.space_id ++ "\n" ++
  "  Transport   : " ++ s.transport ++ "\n" ++
  "  Entrypoint  : " ++ s.entrypoint ++ "\n" ++
  "  Description : " ++ s.description ++ "\n\n"

/-- Translation of `print_human_summary`: the full text it writes to
stdout. -/
def print_human_summary (spaces : List SpaceServer) : String :=
  "Registered Hugging Face Spaces with MCP support:\n\n" ++
    String.join (spaces.map summaryEntry)

/-- The parsed command line (`argparse` namespace): `--output`,
`--list-only`, `--include` (None when the flag is absent). -/
structure Args : Type where
  output : String
  list_only : Bool
  include_names : Option (List String)
deriving DecidableEq, Repr

/-- Observable side effects of one run. -/
inductive Effect : Type
  | summary (text : String)
  | fileWrite (path : String) (contents : Json)
  | println (line : String)

/-- Whether an effect writes to the filesystem. -/
def Effect.isFileWrite : Effect → Bool
  | .fileWrite _ _ => true
  | _ => false

/-- Translation of `main`: the effects performed and the outcome, where
`.error msg` stands for an uncaught exception (`SystemExit(msg)` or
`ValueError`) aborting the run before any further effect.  (Named
`main_run` because Lean reserves `main` for executables.) -/
def main_run (args : Args) : List Effect × Except String Nat :=
  match resolve_selection args.include_names with
  | .error msg => ([], .error msg)
  | .ok chosen =>
    if args.list_only then
      ([.summary (print_human_summary chosen)], .ok 0)
    else
      match build_combined_config chosen with
      | .error e => ([], .error (configErrorMessage e))
      | .ok config =>
        ([.fileWrite args.output (write_config config),
          .println ("✅ Wrote MCP configuration with " ++
            toString config.length ++ " server(s) to " ++ args.output),
          .println "   You can reference this file from Claude Desktop or VS Code's MCP settings."],
         .ok 0)

/-- Process exit status of `raise SystemExit(main(argv))`: `main`'s return
value on success, 1 when an exception escapes. -/
def exitCode : Except String Nat → Nat
  | .ok n => n
  | .error _ => 1

/-- The pure merge loop of `build_combined_config`, separated from the
fallible rendering: fold `dict.update` over already-rendered fragments. -/
def buildFold (d : List (String × ServerConfig))
    (frags : List (String × ServerConfig)) : List (String × ServerConfig) :=
  frags.foldl (fun acc p => dictInsert acc p.1 p.2) d

/-- The rendering relation: each selected entry, in order, renders
successfully to the corresponding fragment. -/
def rendersTo (spaces : List SpaceServer)
    (frags : List (String × ServerConfig)) : Prop :=
  List.Forall₂ (fun s p => s.to_config = .ok p) spaces frags

/-! ## Helper lemmas -/

theorem strData_append (a b : String) : (a ++ b).data = a.data ++ b.data := rfl

/-- Every member of a joined list occurs inside the joined string. -/
theorem strJoin_mem_substring (sep : String) {x : String} {l : List String}
    (hx : x ∈ l) : x.data <:+: (strJoin sep l).data := by
  induction l with
  | nil => cases hx
  | cons y ys ih =>
    cases ys with
    | nil =>
      rcases List.mem_cons.mp hx with h | h
      · subst h; exact List.infix_rfl
      · cases h
    | cons z zs =>
      rcases List.mem_cons.mp hx with h | h
      · subst h
        show x.data <:+: (x ++ sep ++ strJoin sep (z :: zs)).data
        rw [strData_append, strData_append]
        exact ⟨[], sep.data ++ (strJoin sep (z :: zs)).data, by simp⟩
      · have h1 : x.data <:+: (strJoin sep (z :: zs)).data := ih h
        have h2 : (strJoin sep (z :: zs)).data <:+:
            (y ++ sep ++ strJoin sep (z :: zs)).data := by
          rw [strData_append, strData_append]
          exact ⟨(y.data ++ sep.data), [], by simp⟩
        exact h1.trans h2

/-- The key of a rendered fragment is the entry's display name. -/
theorem to_config_key {s : SpaceServer} {p : String × ServerConfig}
    (h : s.to_config = .ok p) : p.1 = s.display_name := by
  unfold SpaceServer.to_config at h
  split at h
  · cases h; rfl
  · split at h
    · cases h; rfl
    · split at h
      · split at h
        · cases h
        · cases h; rfl
      · cases h

/-- Unfolding `List.find?` over a cons cell whose head satisfies the
predicate. -/
theorem find?_cons_true {α : Type} {f : α → Bool} {a : α} (l : List α)
    (h : f a = true) : List.find? f (a :: l) = some a := by
  rw [List.find?]; rw [h]

/-- Unfolding `List.find?` over a cons cell whose head fails the
predicate. -/
theorem find?_cons_false {α : Type} {f : α → Bool} {a : α} (l : List α)
    (h : f a = false) : List.find? f (a :: l) = List.find? f l := by
  rw [List.find?]; rw [h]

/-- Replacing the value stored at a present key: looking that key up
yields the new value. -/
theorem dictLookup_replace_mem {α : Type} (d : List (String × α))
    (k : String) (v : α) (hmem : k ∈ d.map Prod.fst) :
    dictLookup (d.map (fun p => if p.1 = k then (k, v) else p)) k = some v := by
  induction d with
  | nil => simp at hmem
  | cons p d ih =>
    by_cases hp : p.1 = k
    · rw [List.map_cons, if_pos hp, dictLookup,
        find?_cons_true _ (by exact beq_iff_eq.mpr rfl)]
      rfl
    · rw [List.map_cons, if_neg hp, dictLookup,
        find?_cons_false _ (by exact beq_eq_false_iff_ne.mpr hp)]
      rw [List.map_cons] at hmem
      rcases List.mem_cons.mp hmem with h | h
      · exact absurd h.symm hp
      · exact ih h

/-- Replacing the value stored at key `k` leaves lookups of any other key
unchanged. -/
theorem dictLookup_replace_ne {α : Type} (d : List (String × α))
    (k k' : String) (v : α) (hk : k' ≠ k) :
    dictLookup (d.map (fun p => if p.1 = k then (k, v) else p)) k' =
      dictLookup d k' := by
  induction d with
  | nil => rfl
  | cons p d ih =>
    by_cases hp : p.1 = k
    · rw [List.map_cons, if_pos hp, dictLookup,
        find?_cons_false _ (by exact beq_eq_false_iff_ne.mpr (fun hc => hk hc.symm)),
        dictLookup,
        find?_cons_false _ (by exact beq_eq_false_iff_ne.mpr (hp ▸ fun hc => hk hc.symm))]
      exact ih
    · rw [List.map_cons, if_neg hp]
      cases hb : (p.1 == k')
      · rw [dictLookup, find?_cons_false _ (by exact hb), dictLookup,
          find?_cons_false _ (by exact hb)]
        exact ih
      · rw [dictLookup, find?_cons_true _ (by exact hb), dictLookup,
          find?_cons_true _ (by exact hb)]

/-- Looking up after a Python dict insertion: the inserted key maps to the
new value, every other key is unaffected. -/
theorem dictLookup_dictInsert {α : Type} (d : List (String × α))
    (k k' : String) (v : α) :
    dictLookup (dictInsert d k v) k' =
      if k' = k then some v else dictLookup d k' := by
  unfold dictInsert
  split
  · rename_i hmem
    have hmem' : k ∈ d.map Prod.fst := List.elem_iff.mp hmem
    by_cases hk : k' = k
    · subst hk; rw [if_pos rfl]; exact dictLookup_replace_mem d k' v hmem'
    · rw [if_neg hk]; exact dictLookup_replace_ne d k k' v hk
  · rename_i hmem
    have hnotin : k ∉ d.map Prod.fst := fun hc => hmem (List.elem_iff.mpr hc)
    rw [dictLookup, List.find?_append]
    by_cases hk : k' = k
    · subst hk
      have hnone : d.find? (fun p => p.1 == k') = none :=
        List.find?_eq_none.mpr (fun p hp hc =>
          hnotin (beq_iff_eq.mp hc ▸ List.mem_map_of_mem Prod.fst hp))
      rw [hnone, if_pos rfl, find?_cons_true _ (by exact beq_iff_eq.mpr rfl)]
      rfl
    · rw [if_neg hk,
        find?_cons_false _ (by exact beq_eq_false_iff_ne.mpr (fun hc => hk hc.symm)),
        List.find?_nil]
      cases hf : d.find? (fun p => p.1 == k') <;> simp [dictLookup, hf]

/-- Inserting a key already present leaves the key list unchanged. -/
theorem dictInsert_keys_mem {α : Type} (d : List (String × α)) (k : String)
    (v : α) (hmem : k ∈ d.map Prod.fst) :
    (dictInsert d k v).map Prod.fst = d.map Prod.fst := by
  unfold dictInsert
  rw [if_pos (List.elem_iff.mpr hmem), List.map_map]
  exact List.map_congr_left (fun p hp => by
    by_cases h : p.1 = k
    · simp [h]
    · simp [h])

/-- Inserting a fresh key appends it at the end of the key list. -/
theorem dictInsert_keys_not_mem {α : Type} (d : List (String × α)) (k : String)
    (v : α) (hmem : k ∉ d.map Prod.fst) :
    (dictInsert d k v).map Prod.fst = d.map Prod.fst ++ [k] := by
  unfold dictInsert
  rw [if_neg (fun hc => hmem (List.elem_iff.mp hc)), List.map_append]
  rfl

/-- First-occurrence deduplication only depends on the membership of the
seen accumulator. -/
theorem firstDedupAux_congr {s₁ s₂ : List String}
    (h : ∀ a, s₁.contains a = s₂.contains a) (l : List String) :
    firstDedupAux s₁ l = firstDedupAux s₂ l := by
  induction l generalizing s₁ s₂ with
  | nil => rfl
  | cons x xs ih =>
    rw [firstDedupAux, firstDedupAux, h x]
    split
    · exact ih h
    · exact congrArg (List.cons x)
        (ih (fun a => by simp only [List.contains_cons, h a]))

/-- Keys of a merged dict: the seen keys, then the fresh fragment keys in
first-occurrence order. -/
theorem buildFold_keys (frags : List (String × ServerConfig)) :
    ∀ d, (buildFold d frags).map Prod.fst =
      d.map Prod.fst ++ firstDedupAux (d.map Prod.fst) (frags.map Prod.fst) := by
  induction frags with
  | nil => intro d; simp [buildFold, firstDedupAux]
  | cons p frags ih =>
    intro d
    show (buildFold (dictInsert d p.1 p.2) frags).map Prod.fst = _
    rw [ih, List.map_cons, firstDedupAux]
    by_cases hmem : p.1 ∈ d.map Prod.fst
    · rw [dictInsert_keys_mem _ _ _ hmem, if_pos (List.elem_iff.mpr hmem)]
    · rw [dictInsert_keys_not_mem _ _ _ hmem,
        if_neg (fun hc => hmem (List.elem_iff.mp hc)),
        @firstDedupAux_congr _ (p.1 :: d.map Prod.fst)
          (fun a => by
            rw [Bool.eq_iff_iff, List.elem_iff, List.elem_iff]
            simp [or_comm])
          (frags.map Prod.fst)]
      simp

/-- Looking a key up in a merged dict finds the value of the last fragment
carrying that key (last-write-wins). -/
theorem buildFold_lookup (frags : List (String × ServerConfig)) (k : String) :
    dictLookup (buildFold [] frags) k =
      (frags.reverse.find? (fun p => p.1 == k)).map Prod.snd := by
  induction frags using List.reverseRecOn with
  | nil => rfl
  | append_singleton frags p ih =>
    rw [buildFold, List.foldl_append]
    show dictLookup (dictInsert (buildFold [] frags) p.1 p.2) k = _
    rw [dictLookup_dictInsert, List.reverse_append]
    simp only [List.reverse_cons, List.reverse_nil, List.nil_append,
      List.singleton_append]
    by_cases hk : k = p.1
    · rw [if_pos hk, find?_cons_true _ (by exact beq_iff_eq.mpr hk.symm)]
      rfl
    · rw [if_neg hk,
        find?_cons_false _ (by exact beq_eq_false_iff_ne.mpr (fun hc => hk hc.symm))]
      exact ih

/-- A successful rendering of every entry runs the merge loop to
completion. -/
theorem foldlM_of_rendersTo {spaces : List SpaceServer}
    {frags : List (String × ServerConfig)} (h : rendersTo spaces frags) :
    ∀ d, spaces.foldlM
        (fun combined s => (s.to_config).map (fun p => dictInsert combined p.1 p.2)) d
      = .ok (buildFold d frags) := by
  induction h with
  | nil => intro d; rfl
  | cons hsp hrest ih =>
    intro d
    rename_i s p spaces' frags'
    rw [List.foldlM_cons, hsp]
    exact ih _

/-- A successful merge comes from a successful rendering of every entry. -/
theorem rendersTo_of_foldlM {spaces : List SpaceServer} :
    ∀ {d cfg}, spaces.foldlM
        (fun combined s => (s.to_config).map (fun p => dictInsert combined p.1 p.2)) d
      = .ok cfg →
    ∃ frags, rendersTo spaces frags ∧ cfg = buildFold d frags := by
  induction spaces with
  | nil =>
    intro d cfg h
    cases h
    exact ⟨[], List.Forall₂.nil, rfl⟩
  | cons s spaces ih =>
    intro d cfg h
    rw [List.foldlM_cons] at h
    cases hs : s.to_config with
    | error e => rw [hs] at h; cases h
    | ok p =>
      rw [hs] at h
      rcases ih h with ⟨frags, hr, hcfg⟩
      exact ⟨p :: frags, List.Forall₂.cons hs hr, hcfg⟩

/-- An entry that fails to render aborts the merge loop with an error. -/
theorem foldlM_error_of_mem {spaces : List SpaceServer} {s : SpaceServer}
    (hmem : s ∈ spaces) (hbad : ∀ p, s.to_config ≠ .ok p) :
    ∀ d, ∃ e, spaces.foldlM
        (fun combined s => (s.to_config).map (fun p => dictInsert combined p.1 p.2)) d
      = .error e := by
  induction spaces with
  | nil => cases hmem
  | cons s' spaces ih =>
    intro d
    rw [List.foldlM_cons]
    cases hs : s'.to_config with
    | error e => exact ⟨e, rfl⟩
    | ok p =>
      rcases List.mem_cons.mp hmem with h | h
      · exact absurd (h ▸ hs) (hbad p)
      · exact ih h _

/-- Every entry of the catalogue renders, so a rendering exists. -/
theorem rendersTo_exists {spaces : List SpaceServer}
    (h : ∀ s ∈ spaces, ∃ p, s.to_config = .ok p) :
    ∃ frags, rendersTo spaces frags := by
  induction spaces with
  | nil => exact ⟨[], List.Forall₂.nil⟩
  | cons s spaces ih =>
    rcases h s (List.mem_cons_self s spaces) with ⟨p, hp⟩
    rcases ih (fun t ht => h t (List.mem_cons_of_mem s ht)) with ⟨frags, hr⟩
    exact ⟨p :: frags, List.Forall₂.cons hp hr⟩

/-- Fragment keys are the display names of the rendered entries,
in order. -/
theorem rendersTo_keys {spaces : List SpaceServer}
    {frags : List (String × ServerConfig)} (h : rendersTo spaces frags) :
    frags.map Prod.fst = spaces.map SpaceServer.display_name := by
  induction h with
  | nil => rfl
  | cons hsp hrest ih =>
    rw [List.map_cons, List.map_cons, ih, to_config_key hsp]

/-- Membership in the first-occurrence deduplication of a list. -/
theorem mem_firstDedupAux {a : String} :
    ∀ (l seen : List String),
      a ∈ firstDedupAux seen l ↔ (a ∈ l ∧ seen.contains a = false) := by
  intro l
  induction l with
  | nil => intro seen; simp [firstDedupAux]
  | cons x xs ih =>
    intro seen
    rw [firstDedupAux]
    by_cases hx : seen.contains x = true
    · rw [if_pos hx, ih]
      constructor
      · rintro ⟨h1, h2⟩; exact ⟨List.mem_cons_of_mem x h1, h2⟩
      · rintro ⟨h1, h2⟩
        rcases List.mem_cons.mp h1 with h | h
        · subst h; rw [hx] at h2; cases h2
        · exact ⟨h, h2⟩
    · have hxf : seen.contains x = false := by
        revert hx; cases seen.contains x <;> simp
      rw [if_neg hx]
      by_cases hax : a = x
      · subst hax
        simp [hxf, List.mem_cons]
        intro hc
        have hct : seen.contains a = true := List.elem_iff.mpr hc
        exact Bool.noConfusion (hct.symm.trans hxf)
      · have hbeq : (a == x) = false := beq_eq_false_iff_ne.mpr hax
        simp [List.mem_cons, ih, List.contains_cons, hax, hbeq]

/-- Deduplication preserves membership. -/
theorem mem_firstDedup {a : String} (l : List String) :
    a ∈ firstDedup l ↔ a ∈ l := by
  rw [firstDedup, mem_firstDedupAux]
  simp [List.contains]

/-- A name is a valid key exactly when some catalogue entry displays it. -/
theorem mem_catalogueNames {a : String} :
    a ∈ catalogueNames ↔ ∃ s ∈ POPULAR_SPACES, s.display_name = a := by
  rw [catalogueNames, mem_firstDedup]
  simp [List.mem_map]

/-- A successful catalogue lookup returns a catalogue entry displaying the
requested name. -/
theorem findSpace_mem {n : String} {s : SpaceServer}
    (h : findSpace n = some s) :
    s ∈ POPULAR_SPACES ∧ s.display_name = n := by
  have h' : POPULAR_SPACES.reverse.find? (fun t => t.display_name == n)
      = some s := h
  have hp := @List.find?_some _ _ _ _ h'
  exact ⟨List.mem_reverse.mp (List.mem_of_find?_eq_some h'),
    beq_iff_eq.mp hp⟩

/-- Any displayed name can be looked up. -/
theorem findSpace_exists {n : String}
    (h : ∃ s ∈ POPULAR_SPACES, s.display_name = n) :
    ∃ s, findSpace n = some s := by
  rcases h with ⟨s, hs, hn⟩
  have hsome : (POPULAR_SPACES.reverse.find?
      (fun t => t.display_name == n)).isSome = true :=
    List.find?_isSome.mpr ⟨s, List.mem_reverse.mpr hs, beq_iff_eq.mpr hn⟩
  rcases Option.isSome_iff_exists.mp hsome with ⟨t, ht⟩
  exact ⟨t, ht⟩

/-- Looking every requested name up yields entries displaying exactly the
requested names, in request order. -/
theorem filterMap_findSpace_display {sel : List String}
    (h : ∀ n ∈ sel, ∃ s, findSpace n = some s) :
    (sel.filterMap findSpace).map SpaceServer.display_name = sel := by
  induction sel with
  | nil => rfl
  | cons n sel ih =>
    rcases h n (List.mem_cons_self n sel) with ⟨s, hs⟩
    rw [List.filterMap_cons, hs, List.map_cons,
      (findSpace_mem hs).2, ih (fun m hm => h m (List.mem_cons_of_mem n hm))]

/-- Unfolding `resolve_selection` on a non-empty all-valid selection. -/
theorem resolve_selection_ok {sel : List String} (hne : sel ≠ [])
    (hall : ∀ n ∈ sel, n ∈ catalogueNames) :
    resolve_selection (some sel) = .ok (sel.filterMap findSpace) := by
  have h1 : sel.isEmpty = false := by
    cases sel with
    | nil => exact absurd rfl hne
    | cons a l => rfl
  have hfilter : sel.filter (fun name => !(catalogueNames.contains name)) = [] :=
    List.filter_eq_nil_iff.mpr (fun n hn => by
      have hc : catalogueNames.contains n = true := List.elem_iff.mpr (hall n hn)
      rw [hc]
      simp)
  simp only [resolve_selection, h1, Bool.false_eq_true, if_false, hfilter,
    List.isEmpty_nil, if_true]

/-- Unfolding `resolve_selection` on a selection holding an unknown name:
the run raises with the recorded message, and the unknown name is among
the enumerated unknowns. -/
theorem resolve_selection_error {sel : List String} {n : String}
    (hn : n ∈ sel) (hbad : n ∉ catalogueNames) :
    resolve_selection (some sel) =
      .error ("Unknown space(s): " ++
        strJoin ", " (sel.filter (fun name => !(catalogueNames.contains name))) ++
        ". Valid options: " ++
        strJoin ", " (List.insertionSort (fun a b => a ≤ b) catalogueNames)) ∧
    n ∈ sel.filter (fun name => !(catalogueNames.contains name)) := by
  have h1 : sel.isEmpty = false := by
    cases sel with
    | nil => cases hn
    | cons a l => rfl
  have hcf : catalogueNames.contains n = false := by
    cases hc : catalogueNames.contains n
    · rfl
    · exact absurd (List.elem_iff.mp hc) hbad
  have hmemf : n ∈ sel.filter (fun name => !(catalogueNames.contains name)) :=
    List.mem_filter.mpr ⟨hn, by rw [hcf]; rfl⟩
  have hfne : (sel.filter (fun name => !(catalogueNames.contains name))).isEmpty
      = false := by
    cases h : sel.filter (fun name => !(catalogueNames.contains name)) with
    | nil => rw [h] at hmemf; cases hmemf
    | cons a l => rfl
  refine ⟨?_, hmemf⟩
  simp only [resolve_selection, h1, Bool.false_eq_true, if_false, hfne]

/-- Whatever the selector returns comes from the catalogue. -/
theorem resolve_selection_subset {sel : Option (List String)}
    {spaces : List SpaceServer} (h : resolve_selection sel = .ok spaces) :
    ∀ s ∈ spaces, s ∈ POPULAR_SPACES := by
  intro s hs
  match sel with
  | none =>
    rw [resolve_selection] at h
    cases h
    exact hs
  | some l =>
    rw [resolve_selection] at h
    by_cases hl : l.isEmpty = true
    · rw [if_pos hl] at h
      cases h
      exact hs
    · rw [if_neg hl] at h
      have h' : (if (l.filter (fun name => !(catalogueNames.contains name))).isEmpty = true
          then Except.ok (l.filterMap findSpace)
          else Except.error ("Unknown space(s): " ++
            strJoin ", " (l.filter (fun name => !(catalogueNames.contains name))) ++
            ". Valid options: " ++
            strJoin ", " (List.insertionSort (fun a b => a ≤ b) catalogueNames)))
          = .ok spaces := h
      split at h'
      · cases h'
        rcases List.mem_filterMap.mp hs with ⟨n, _, hfs⟩
        exact (findSpace_mem hfs).1
      · cases h'

/-- Transform on a direct-HTTP entry. -/
theorem to_config_http {s : SpaceServer} (h : s.transport = "http") :
    s.to_config = .ok (s.display_name, .http s.entrypoint) := by
  rw [SpaceServer.to_config, if_pos h]

/-- Transform on a socket-stream entry. -/
theorem to_config_ws {s : SpaceServer} (h : s.transport = "ws") :
    s.to_config = .ok (s.display_name, .ws s.entrypoint) := by
  rw [SpaceServer.to_config, if_neg (by rw [h]; decide), if_pos h]

/-- Transform on a local-process entry: split the entrypoint on
whitespace; fail when no token results, otherwise head token is the
command and the rest the arguments. -/
theorem to_config_command {s : SpaceServer} (h : s.transport = "command") :
    s.to_config = (match pySplit s.entrypoint with
      | [] => .error ConfigError.unpackError
      | command :: args => .ok (s.display_name, .cmd command args)) := by
  rw [SpaceServer.to_config, if_neg (by rw [h]; decide),
    if_neg (by rw [h]; decide), if_pos h]

/-- Transform on an unrecognised transport: the recorded error. -/
theorem to_config_unsupported {s : SpaceServer} (h1 : s.transport ≠ "http")
    (h2 : s.transport ≠ "ws") (h3 : s.transport ≠ "command") :
    s.to_config = .error (.unsupportedTransport s.space_id s.transport) := by
  rw [SpaceServer.to_config, if_neg h1, if_neg h2, if_neg h3]

/-- Splitting an all-whitespace character list yields no tokens. -/
theorem pySplitChars_whitespace {l : List Char}
    (h : ∀ c ∈ l, pyIsSpace c = true) : pySplitChars l [] = [] := by
  induction l with
  | nil => rfl
  | cons c rest ih =>
    rw [pySplitChars, if_pos (h c (List.mem_cons_self c rest))]
    exact ih (fun d hd => h d (List.mem_cons_of_mem c hd))

/-- Splitting an all-whitespace (or empty) string yields no tokens. -/
theorem pySplit_whitespace {s : String} (h : s.data.all pyIsSpace = true) :
    pySplit s = [] :=
  pySplitChars_whitespace (fun c hc => List.all_eq_true.mp h c hc)

/-- Every entry of the built-in catalogue renders successfully. -/
theorem popular_all_ok : ∀ s ∈ POPULAR_SPACES, ∃ p, s.to_config = .ok p := by
  intro s hs
  simp only [POPULAR_SPACES, List.mem_cons, List.not_mem_nil, or_false] at hs
  rcases hs with rfl | rfl | rfl | rfl <;> exact ⟨_, rfl⟩

/-- Entries drawn from the catalogue always merge successfully. -/
theorem build_ok_of_popular {spaces : List SpaceServer}
    (h : ∀ s ∈ spaces, s ∈ POPULAR_SPACES) :
    ∃ cfg, build_combined_config spaces = .ok cfg := by
  rcases rendersTo_exists (fun s hs => popular_all_ok s (h s hs)) with ⟨frags, hr⟩
  exact ⟨_, foldlM_of_rendersTo hr []⟩

/-- Decoding inverts encoding on one fragment. -/
theorem decode_encode_server (c : ServerConfig) :
    decodeServerConfig (encodeServerConfig c) = some c := by
  cases c with
  | http url => rfl
  | ws url => rfl
  | cmd command args =>
    have hargs : decodeStrList (args.map Json.str) = some args := by
      induction args with
      | nil => rfl
      | cons a args ih => simp [List.map_cons, decodeStrList, decodeStr, ih]
    simp [encodeServerConfig, decodeServerConfig, hargs]

/-- Decoding inverts encoding on the member list of the mapping. -/
theorem decodeMembers_encode (config : List (String × ServerConfig)) :
    decodeMembers (config.map (fun p => (p.1, encodeServerConfig p.2)))
      = some config := by
  induction config with
  | nil => rfl
  | cons p config ih =>
    simp [List.map_cons, decodeMembers, decode_encode_server, ih]

/-- Parsing the written JSON value recovers the in-memory mapping. -/
theorem parse_write (config : List (String × ServerConfig)) :
    parse_config (write_config config) = some config := by
  rw [write_config, parse_config, encodeConfig, decodeConfig]
  exact decodeMembers_encode config

/-- The sorted list of valid identifiers is sorted. -/
theorem sortedNames_sorted :
    List.Sorted (fun a b => a ≤ b)
      (List.insertionSort (fun a b => a ≤ b) catalogueNames) :=
  List.sorted_insertionSort (fun a b => a ≤ b) catalogueNames

/-- The sorted list of valid identifiers holds exactly the displayed
names. -/
theorem sortedNames_mem (a : String) :
    a ∈ List.insertionSort (fun a b => a ≤ b) catalogueNames ↔
      ∃ s ∈ POPULAR_SPACES, s.display_name = a := by
  rw [(List.perm_insertionSort (fun a b => a ≤ b) catalogueNames).mem_iff]
  exact mem_catalogueNames

/-! ## Claim theorems -/

/-- C2: the transform renders a fragment determined solely by the
transport kind: direct HTTP gives a `type http` and `url` fragment,
socket stream a `type ws` and `url` fragment, and a local process splits
the entrypoint on whitespace into command plus arguments; in particular
the entrypoint `npx -y @modelcontextprotocol/server-everything stdio`
yields command `npx` and the remaining three tokens as arguments, and
non-ASCII whitespace such as U+00A0 also separates tokens. -/
theorem spec_c2_transport_fragments (s : SpaceServer) :
    (s.transport = "http" →
      s.to_config = .ok (s.display_name, .http s.entrypoint)) ∧
    (s.transport = "ws" →
      s.to_config = .ok (s.display_name, .ws s.entrypoint)) ∧
    (∀ c args, s.transport = "command" → pySplit s.entrypoint = c :: args →
      s.to_config = .ok (s.display_name, .cmd c args)) ∧
    SpaceServer.to_config
      { space_id := "modelcontextprotocol/Everything",
        display_name := "everything", transport := "command",
        entrypoint := "npx -y @modelcontextprotocol/server-everything stdio",
        description := "" }
      = .ok ("everything", .cmd "npx"
          ["-y", "@modelcontextprotocol/server-everything", "stdio"]) ∧
    pySplit "npx\u00A0-y" = ["npx", "-y"] := by
  refine ⟨fun h => to_config_http h, fun h => to_config_ws h,
    fun c args h hs => ?_, rfl, by decide⟩
  rw [to_config_command h, hs]

/-- Witness for C2 at a concrete direct-HTTP entry. -/
theorem spec_c2_witness :
    SpaceServer.to_config
      { space_id := "demo/space", display_name := "demo", transport := "http",
        entrypoint := "https://example.hf.space/mcp", description := "" }
      = .ok ("demo", .http "https://example.hf.space/mcp") :=
  (spec_c2_transport_fragments _).1 rfl

/-- C4: an absent or empty selection returns the full catalogue in
catalogue order, and (the catalogue's display names being unique) the
merged mapping has exactly one key per catalogue entry. -/
theorem spec_c4_empty_selection_full_catalogue :
    resolve_selection none = .ok POPULAR_SPACES ∧
    resolve_selection (some []) = .ok POPULAR_SPACES ∧
    (POPULAR_SPACES.map (fun s => s.display_name)).Nodup ∧
    ∃ cfg, build_combined_config POPULAR_SPACES = .ok cfg ∧
      cfg.length = POPULAR_SPACES.length := by
  refine ⟨rfl, rfl, by decide,
    ⟨[("everything",
        .cmd "npx" ["-y", "@modelcontextprotocol/server-everything", "stdio"]),
      ("llama-3-8b-chat", .http "https://llama-3-8b-instruct.hf.space/mcp"),
      ("stable-diffusion",
        .http "https://stabilityai-stable-diffusion.hf.space/mcp"),
      ("phi-3-vision", .http "https://microsoft-phi-3-vision.hf.space/mcp")],
     rfl, rfl⟩⟩

/-- C7: the writer wraps the merged mapping as a single-member object
keyed `servers`, member order follows insertion order, and parsing the
written value back recovers the mapping exactly. -/
theorem spec_c7_write_roundtrip (config : List (String × ServerConfig)) :
    write_config config = .obj [("servers", encodeConfig config)] ∧
    (∃ members, encodeConfig config = .obj members ∧
      members.map Prod.fst = config.map Prod.fst) ∧
    parse_config (write_config config) = some config :=
  ⟨rfl, ⟨config.map (fun p => (p.1, encodeServerConfig p.2)),
    by unfold encodeConfig; rfl, by rw [List.map_map]; rfl⟩, parse_write config⟩

/-- C9: rendering a local-process entry is partial: an empty or
all-whitespace entrypoint splits to no tokens and the transform raises
the unpacking error instead of producing a fragment; with at least one
token it succeeds. -/
theorem spec_c9_command_unpacking (s : SpaceServer)
    (h : s.transport = "command") :
    (s.entrypoint.data.all pyIsSpace = true →
      pySplit s.entrypoint = [] ∧ s.to_config = .error .unpackError) ∧
    (∀ c args, pySplit s.entrypoint = c :: args →
      s.to_config = .ok (s.display_name, .cmd c args)) := by
  constructor
  · intro hw
    have hs := pySplit_whitespace hw
    refine ⟨hs, ?_⟩
    rw [to_config_command h, hs]
  · intro c args hs
    rw [to_config_command h, hs]

/-- Witness for C9 at a concrete local-process entry whose entrypoint is
a single no-break space (U+00A0), whitespace to Python's `str.split()`. -/
theorem spec_c9_witness :
    pySplit "\u00A0" = [] ∧
    SpaceServer.to_config
      { space_id := "example/blank", display_name := "blank",
        transport := "command", entrypoint := "\u00A0", description := "" }
      = .error .unpackError :=
  (spec_c9_command_unpacking
    { space_id := "example/blank", display_name := "blank",
      transport := "command", entrypoint := "\u00A0", description := "" } rfl).1
    (by decide)

/-- C10: every built-in catalogue entry has one of the three recognised
transports, every entry renders, and hence every selection resolved from
the catalogue merges successfully: the unsupported-transport branch is
unreachable from the catalogue. -/
theorem spec_c10_catalogue_transports :
    (∀ s ∈ POPULAR_SPACES, s.transport = "http" ∨ s.transport = "ws" ∨
      s.transport = "command") ∧
    (∀ s ∈ POPULAR_SPACES, ∃ p, s.to_config = .ok p) ∧
    (∀ sel spaces, resolve_selection sel = .ok spaces →
      ∃ cfg, build_combined_config spaces = .ok cfg) :=
  ⟨by decide, popular_all_ok,
   fun sel spaces h => build_ok_of_popular (resolve_selection_subset h)⟩

/-- Witness for C10: the full catalogue itself merges successfully. -/
theorem spec_c10_witness :
    ∃ cfg, build_combined_config POPULAR_SPACES = .ok cfg :=
  spec_c10_catalogue_transports.2.2 none POPULAR_SPACES rfl

/-- C1: for every non-empty selection whose names all match catalogue
entries, the selector returns the matching entries in request order (not
catalogue order), and the merged mapping's keys are exactly the requested
display names, ordered by first occurrence in the request. -/
theorem spec_c1_selection_input_order (sel : List String) (hne : sel ≠ [])
    (hall : ∀ n ∈ sel, ∃ s ∈ POPULAR_SPACES, s.display_name = n) :
    ∃ spaces cfg,
      resolve_selection (some sel) = .ok spaces ∧
      spaces = sel.filterMap findSpace ∧
      (∀ n ∈ sel, ∃ s, findSpace n = some s ∧ s ∈ POPULAR_SPACES ∧
        s.display_name = n) ∧
      spaces.map SpaceServer.display_name = sel ∧
      build_combined_config spaces = .ok cfg ∧
      cfg.map Prod.fst = firstDedup sel ∧
      (∀ k, k ∈ cfg.map Prod.fst ↔ k ∈ sel) := by
  have hall' : ∀ n ∈ sel, n ∈ catalogueNames :=
    fun n hn => mem_catalogueNames.mpr (hall n hn)
  have hfind : ∀ n ∈ sel, ∃ s, findSpace n = some s :=
    fun n hn => findSpace_exists (hall n hn)
  have hres := resolve_selection_ok hne hall'
  have hdisp := filterMap_findSpace_display hfind
  have hsub : ∀ s ∈ sel.filterMap findSpace, s ∈ POPULAR_SPACES := by
    intro s hs
    rcases List.mem_filterMap.mp hs with ⟨n, _, hfs⟩
    exact (findSpace_mem hfs).1
  rcases rendersTo_exists (fun s hs => popular_all_ok s (hsub s hs)) with
    ⟨frags, hr⟩
  have hbuild := foldlM_of_rendersTo hr []
  have hkeys : (buildFold [] frags).map Prod.fst = firstDedup sel := by
    rw [buildFold_keys frags [], rendersTo_keys hr, hdisp]
    rfl
  refine ⟨sel.filterMap findSpace, buildFold [] frags, hres, rfl,
    ?_, hdisp, hbuild, hkeys, ?_⟩
  · intro n hn
    rcases hfind n hn with ⟨s, hs⟩
    exact ⟨s, hs, (findSpace_mem hs).1, (findSpace_mem hs).2⟩
  · intro k
    rw [hkeys, mem_firstDedup]

/-- Witness for C1 at a concrete two-name selection, requested in the
opposite of catalogue order. -/
theorem spec_c1_witness :
    ∃ spaces cfg,
      resolve_selection (some ["llama-3-8b-chat", "everything"]) = .ok spaces ∧
      spaces = ["llama-3-8b-chat", "everything"].filterMap findSpace ∧
      (∀ n ∈ ["llama-3-8b-chat", "everything"], ∃ s, findSpace n = some s ∧
        s ∈ POPULAR_SPACES ∧ s.display_name = n) ∧
      spaces.map SpaceServer.display_name = ["llama-3-8b-chat", "everything"] ∧
      build_combined_config spaces = .ok cfg ∧
      cfg.map Prod.fst = firstDedup ["llama-3-8b-chat", "everything"] ∧
      (∀ k, k ∈ cfg.map Prod.fst ↔ k ∈ ["llama-3-8b-chat", "everything"]) :=
  spec_c1_selection_input_order ["llama-3-8b-chat", "everything"]
    (by decide) (by decide)

/-- C6: a successful merge combines the rendered fragments in selection
order; looking any display name up in the result finds the fragment of
the last selected entry carrying that name (last-write-wins), so
fragments with distinct names are all present unchanged. -/
theorem spec_c6_last_write_wins (spaces : List SpaceServer)
    (cfg : List (String × ServerConfig))
    (h : build_combined_config spaces = .ok cfg) :
    ∃ frags, rendersTo spaces frags ∧
      frags.map Prod.fst = spaces.map SpaceServer.display_name ∧
      cfg.map Prod.fst = firstDedup (spaces.map SpaceServer.display_name) ∧
      (∀ k, dictLookup cfg k =
        (frags.reverse.find? (fun p => p.1 == k)).map Prod.snd) := by
  rcases rendersTo_of_foldlM h with ⟨frags, hr, rfl⟩
  refine ⟨frags, hr, rendersTo_keys hr, ?_, fun k => buildFold_lookup frags k⟩
  rw [buildFold_keys frags [], rendersTo_keys hr]
  rfl

/-- Witness for C6 at a concrete two-entry selection sharing one display
name: the later socket-stream fragment overwrites the earlier HTTP one. -/
theorem spec_c6_witness :
    ∃ frags,
      rendersTo
        [{ space_id := "a/one", display_name := "dup", transport := "http",
           entrypoint := "https://one.hf.space/mcp", description := "" },
         { space_id := "b/two", display_name := "dup", transport := "ws",
           entrypoint := "wss://two.hf.space/mcp", description := "" }] frags ∧
      frags.map Prod.fst =
        ([{ space_id := "a/one", display_name := "dup", transport := "http",
            entrypoint := "https://one.hf.space/mcp", description := "" },
          { space_id := "b/two", display_name := "dup", transport := "ws",
            entrypoint := "wss://two.hf.space/mcp", description := "" }] :
          List SpaceServer).map SpaceServer.display_name ∧
      [("dup", ServerConfig.ws "wss://two.hf.space/mcp")].map Prod.fst =
        firstDedup
          (([{ space_id := "a/one", display_name := "dup", transport := "http",
               entrypoint := "https://one.hf.space/mcp", description := "" },
             { space_id := "b/two", display_name := "dup", transport := "ws",
               entrypoint := "wss://two.hf.space/mcp", description := "" }] :
            List SpaceServer).map SpaceServer.display_name) ∧
      (∀ k, dictLookup [("dup", ServerConfig.ws "wss://two.hf.space/mcp")] k =
        (frags.reverse.find? (fun p => p.1 == k)).map Prod.snd) :=
  spec_c6_last_write_wins _ _ rfl

/-- C8: with the list-only flag and a valid selection the run prints the
summary of exactly the resolved entries in selection order and performs
no filesystem write. -/
theorem spec_c8_list_only_no_write (args : Args) (spaces : List SpaceServer)
    (hl : args.list_only = true)
    (h : resolve_selection args.include_names = .ok spaces) :
    main_run args = ([.summary (print_human_summary spaces)], .ok 0) ∧
    (∀ e ∈ (main_run args).1, e.isFileWrite = false) ∧
    print_human_summary spaces =
      "Registered Hugging Face Spaces with MCP support:\n\n" ++
        String.join (spaces.map summaryEntry) := by
  have hm : main_run args = ([.summary (print_human_summary spaces)], .ok 0) := by
    rw [main_run, h]
    exact if_pos hl
  refine ⟨hm, ?_, rfl⟩
  rw [hm]
  intro e he
  rcases List.mem_singleton.mp he with rfl
  rfl

/-- Witness for C8 at a concrete one-name list-only invocation. -/
theorem spec_c8_witness :
    main_run (Args.mk "mcp_spaces.json" true (some ["stable-diffusion"])) =
      ([.summary (print_human_summary (["stable-diffusion"].filterMap findSpace))],
       .ok 0) ∧
    (∀ e ∈ (main_run
        (Args.mk "mcp_spaces.json" true (some ["stable-diffusion"]))).1,
      e.isFileWrite = false) ∧
    print_human_summary (["stable-diffusion"].filterMap findSpace) =
      "Registered Hugging Face Spaces with MCP support:\n\n" ++
        String.join ((["stable-diffusion"].filterMap findSpace).map summaryEntry) :=
  spec_c8_list_only_no_write _ _ rfl
    (resolve_selection_ok (by decide) (by decide))

/-- An explicit decomposition of a string exhibits an infix of its
character data. -/
theorem strData_infix_of_eq {x msg : String} (a c : String)
    (h : msg = a ++ x ++ c) : x.data <:+: msg.data := by
  subst h
  exact ⟨a.data, c.data, rfl⟩

/-- C3: a selection holding any unknown display name makes the run fail
with a single terminal error whose message names every unmatched
identifier and contains the comma-joined list of all valid identifiers in
sorted order; the process exit status is non-zero and no effect (in
particular no file write) is performed. -/
theorem spec_c3_unknown_names_error (sel : List String)
    (hbad : ∃ n ∈ sel, ∀ s ∈ POPULAR_SPACES, s.display_name ≠ n) :
    ∃ msg, resolve_selection (some sel) = .error msg ∧
      (∀ n ∈ sel, (∀ s ∈ POPULAR_SPACES, s.display_name ≠ n) →
        n.data <:+: msg.data) ∧
      (strJoin ", " (List.insertionSort (fun a b => a ≤ b) catalogueNames)).data
        <:+: msg.data ∧
      List.Sorted (fun a b => a ≤ b)
        (List.insertionSort (fun a b => a ≤ b) catalogueNames) ∧
      (∀ a, a ∈ List.insertionSort (fun a b => a ≤ b) catalogueNames ↔
        ∃ s ∈ POPULAR_SPACES, s.display_name = a) ∧
      (∀ args : Args, args.include_names = some sel →
        main_run args = ([], .error msg) ∧ exitCode (main_run args).2 = 1) := by
  rcases hbad with ⟨n0, hn0, hb0⟩
  have hb0' : n0 ∉ catalogueNames := fun hc => by
    rcases mem_catalogueNames.mp hc with ⟨s, hs, hd⟩
    exact hb0 s hs hd
  rcases resolve_selection_error hn0 hb0' with ⟨herr, _⟩
  refine ⟨_, herr, ?_, ?_, sortedNames_sorted, sortedNames_mem, ?_⟩
  · intro n hn hnb
    have hnb' : n ∉ catalogueNames := fun hc => by
      rcases mem_catalogueNames.mp hc with ⟨s, hs, hd⟩
      exact hnb s hs hd
    have hcf : catalogueNames.contains n = false := by
      cases hc : catalogueNames.contains n
      · rfl
      · exact absurd (List.elem_iff.mp hc) hnb'
    have hmemU : n ∈ sel.filter (fun name => !(catalogueNames.contains name)) :=
      List.mem_filter.mpr ⟨hn, by rw [hcf]; rfl⟩
    refine (strJoin_mem_substring ", " hmemU).trans (strData_infix_of_eq
      "Unknown space(s): "
      (". Valid options: " ++
        strJoin ", " (List.insertionSort (fun a b => a ≤ b) catalogueNames)) ?_)
    rw [String.append_assoc]
  · refine strData_infix_of_eq
      ("Unknown space(s): " ++
        strJoin ", " (sel.filter (fun name => !(catalogueNames.contains name))) ++
        ". Valid options: ") "" ?_
    rw [String.append_empty]
  · intro args ha
    have hmain : main_run args =
        ([], .error ("Unknown space(s): " ++
          strJoin ", " (sel.filter (fun name => !(catalogueNames.contains name))) ++
          ". Valid options: " ++
          strJoin ", " (List.insertionSort (fun a b => a ≤ b) catalogueNames))) := by
      rw [main_run, ha, herr]
    exact ⟨hmain, by rw [hmain]; rfl⟩

/-- Witness for C3 at the selection `not-a-real-space` of the
specification's example. -/
theorem spec_c3_witness :
    ∃ msg, resolve_selection (some ["not-a-real-space"]) = .error msg ∧
      (∀ n ∈ ["not-a-real-space"],
        (∀ s ∈ POPULAR_SPACES, s.display_name ≠ n) →
        n.data <:+: msg.data) ∧
      (strJoin ", " (List.insertionSort (fun a b => a ≤ b) catalogueNames)).data
        <:+: msg.data ∧
      List.Sorted (fun a b => a ≤ b)
        (List.insertionSort (fun a b => a ≤ b) catalogueNames) ∧
      (∀ a, a ∈ List.insertionSort (fun a b => a ≤ b) catalogueNames ↔
        ∃ s ∈ POPULAR_SPACES, s.display_name = a) ∧
      (∀ args : Args, args.include_names = some ["not-a-real-space"] →
        main_run args = ([], .error msg) ∧ exitCode (main_run args).2 = 1) :=
  spec_c3_unknown_names_error ["not-a-real-space"] (by decide)

/-- C5: an entry whose transport is none of the three recognised kinds
fails with the unsupported-transport error, whose message contains both
the transport string and the entry identifier; membership of such an
entry in any selection aborts the whole merge, and hence the run. -/
theorem spec_c5_unsupported_transport (s : SpaceServer)
    (h1 : s.transport ≠ "http") (h2 : s.transport ≠ "ws")
    (h3 : s.transport ≠ "command") :
    s.to_config = .error (.unsupportedTransport s.space_id s.transport) ∧
    s.transport.data <:+:
      (configErrorMessage (.unsupportedTransport s.space_id s.transport)).data ∧
    s.space_id.data <:+:
      (configErrorMessage (.unsupportedTransport s.space_id s.transport)).data ∧
    (∀ spaces, s ∈ spaces → ∃ e, build_combined_config spaces = .error e) ∧
    (∀ (args : Args) spaces,
      resolve_selection args.include_names = .ok spaces → s ∈ spaces →
      args.list_only = false →
      ∃ m, main_run args = ([], .error m) ∧ exitCode (main_run args).2 = 1) := by
  have hconf := to_config_unsupported h1 h2 h3
  have hbad : ∀ p, s.to_config ≠ .ok p := fun p hc => by
    rw [hconf] at hc
    cases hc
  have habort : ∀ spaces, s ∈ spaces →
      ∃ e, build_combined_config spaces = .error e :=
    fun spaces hmem => foldlM_error_of_mem hmem hbad []
  refine ⟨hconf, ?_, ?_, habort, ?_⟩
  · refine strData_infix_of_eq "Unsupported transport '"
      ("' for " ++ s.space_id) ?_
    rw [configErrorMessage, String.append_assoc]
  · refine strData_infix_of_eq
      ("Unsupported transport '" ++ s.transport ++ "' for ") "" ?_
    rw [configErrorMessage, String.append_empty]
  · intro args spaces hres hmem hl
    rcases habort spaces hmem with ⟨e, he⟩
    have hmain : main_run args = ([], .error (configErrorMessage e)) := by
      rw [main_run, hres]
      have : (if args.list_only = true
          then ([Effect.summary (print_human_summary spaces)], Except.ok 0)
          else match build_combined_config spaces with
            | Except.error e => ([], Except.error (configErrorMessage e))
            | Except.ok config =>
              ([Effect.fileWrite args.output (write_config config),
                Effect.println ("✅ Wrote MCP configuration with " ++
                  toString config.length ++ " server(s) to " ++ args.output),
                Effect.println "   You can reference this file from Claude Desktop or VS Code's MCP settings."],
               Except.ok 0))
          = ([], Except.error (configErrorMessage e)) := by
        rw [if_neg (by rw [hl]; exact Bool.false_ne_true), he]
      exact this
    exact ⟨configErrorMessage e, hmain, by rw [hmain]; rfl⟩

/-- Witness for C5 at a concrete entry declaring an unrecognised `sse`
transport. -/
theorem spec_c5_witness :
    SpaceServer.to_config
      { space_id := "demo/sse", display_name := "sse-demo", transport := "sse",
        entrypoint := "https://sse.hf.space/mcp", description := "" }
      = .error (.unsupportedTransport "demo/sse" "sse") ∧
    ("sse" : String).data <:+:
      (configErrorMessage (.unsupportedTransport "demo/sse" "sse")).data ∧
    ("demo/sse" : String).data <:+:
      (configErrorMessage (.unsupportedTransport "demo/sse" "sse")).data ∧
    (∀ spaces,
      ({ space_id := "demo/sse", display_name := "sse-demo",
         transport := "sse", entrypoint := "https://sse.hf.space/mcp",
         description := "" } : SpaceServer) ∈ spaces →
      ∃ e, build_combined_config spaces = .error e) ∧
    (∀ (args : Args) spaces,
      resolve_selection args.include_names = .ok spaces →
      ({ space_id := "demo/sse", display_name := "sse-demo",
         transport := "sse", entrypoint := "https://sse.hf.space/mcp",
         description := "" } : SpaceServer) ∈ spaces →
      args.list_only = false →
      ∃ m, main_run args = ([], .error m) ∧ exitCode (main_run args).2 = 1) :=
  spec_c5_unsupported_transport _ (by decide) (by decide) (by decide)
